import Mathlib

/-!
# Verification of the `python_blockchain` core against its specification

Shallow embedding of the repository's core (`block.py`, `blockchain.py`,
`network.py`, `node.py`) in Lean 4.

Modelling conventions:
* Python JSON values are modelled by the inductive `Json`; `json_dumps` of a
  dataclass produces the JSON value whose object fields appear in dataclass
  declaration order (Python dicts preserve insertion order, `dataclasses.asdict`
  uses field order), and `json_loads` inverts it, returning `none` where the
  Python code would raise.
* The SHA-256 hex digest is an uninterpreted parameter `sha : Json → String`;
  `Block.hash` is `sha` applied to the block's serialization, exactly as the
  source hashes the serialized block bytes.  All control-flow claims hold for
  every `sha`.
* The RSA PKCS1 signature check of `Node.verify_transaction` is an
  uninterpreted parameter `rsa : Transaction → Bool`; the `sign is None` test
  that precedes it is part of the embedded code.
* Mutable state is threaded explicitly: `Network` is a record of association
  lists (one per shared `Manager` dict), and node methods take and return the
  pieces of state they read and write.  A Python exception (`KeyError` of
  `self.neighbours[uuid]`, or a JSON parse error) is modelled by `none`.
* The infinite randomized nonce generator of `Node.random_generator` is
  modelled by an explicit list of nonce candidates handed to the mining loop;
  an exhausted list corresponds to a point the Python loop never reaches.
-/

/-- A Python JSON value (`json` module): null, string, int, float, array,
object with ordered fields. -/
inductive Json where
  | null : Json
  | str (s : String) : Json
  | int (n : Int) : Json
  | float (x : Float) : Json
  | arr (elems : List Json) : Json
  | obj (fields : List (String × Json)) : Json

/-- Modelled from the spec: the `Transaction` dataclass is not under `src/`
(only its callers are).  Spec §3: "Transaction: { sender_address: PublicKey,
receiver_address: PublicKey, value: numeric, signature: optional }" with
fields serialized in declaration order (addresses are serialized key strings,
the signature a hex string or null). -/
structure Transaction where
  sender_address : String
  receiver_address : String
  value : Int
  sign : Option String
deriving DecidableEq

/-- Modelled from the spec: canonical serialization of the four `Transaction`
fields in declaration order. -/
def Transaction.json_dumps (t : Transaction) : Json :=
  .obj [("sender_address", .str t.sender_address),
        ("receiver_address", .str t.receiver_address),
        ("value", .int t.value),
        ("sign", match t.sign with | none => .null | some s => .str s)]

/-- Modelled from the spec: inverse of `Transaction.json_dumps`; `none` models
the exception Python raises on malformed input. -/
def Transaction.json_loads (j : Json) : Option Transaction :=
  match j with
  | .obj [(ks, .str s), (kr, .str r), (kv, .int v), (kg, sj)] =>
    if ks = "sender_address" ∧ kr = "receiver_address" ∧ kv = "value" ∧ kg = "sign" then
      match sj with
      | .null => some ⟨s, r, v, none⟩
      | .str sg => some ⟨s, r, v, some sg⟩
      | _ => none
    else none
  | _ => none

/-- A Python list comprehension `[f(x) for x in l]` whose body may raise:
`none` as soon as one element fails, the mapped list otherwise. -/
def loadAll {α : Type} (f : Json → Option α) : List Json → Option (List α)
  | [] => some []
  | j :: js =>
    match f j with
    | none => none
    | some x =>
      match loadAll f js with
      | none => none
      | some xs => some (x :: xs)

/-- `Block` dataclass (block.py): `time: float`, `transactions: Tuple[Transaction]`,
`previous_hash: str`, `nonce: int = None`. -/
structure Block where
  time : Float
  transactions : List Transaction
  previous_hash : String
  nonce : Option Int

instance : Inhabited Block := ⟨⟨0, [], "", none⟩⟩

/-- block.py `json_dumps`: `asdict` in field order, with the `transactions`
entry replaced by the list of individually serialized transactions. -/
def Block.json_dumps (b : Block) : Json :=
  .obj [("time", .float b.time),
        ("transactions", .arr (b.transactions.map Transaction.json_dumps)),
        ("previous_hash", .str b.previous_hash),
        ("nonce", match b.nonce with | none => .null | some n => .int n)]

/-- block.py `json_loads`: parse, deserialize each transaction, rebuild the
dataclass; `none` models the exception on malformed input. -/
def Block.json_loads (j : Json) : Option Block :=
  match j with
  | .obj [(kt, .float tm), (kx, .arr ts), (kp, .str p), (kn, nj)] =>
    if kt = "time" ∧ kx = "transactions" ∧ kp = "previous_hash" ∧ kn = "nonce" then
      match loadAll Transaction.json_loads ts with
      | none => none
      | some txs =>
        match nj with
        | .null => some ⟨tm, txs, p, none⟩
        | .int n => some ⟨tm, txs, p, some n⟩
        | _ => none
    else none
  | _ => none

/-- block.py `hash`: SHA-256 hex digest of the serialized block; `sha` is the
uninterpreted digest function. -/
def Block.hash (sha : Json → String) (b : Block) : String :=
  sha b.json_dumps

/-- blockchain.py: `BlockChain(list)` — a chain is a list of blocks. -/
abbrev BlockChain := List Block

/-- blockchain.py `json_dumps`: the list of serialized blocks. -/
def BlockChain.json_dumps (c : BlockChain) : Json :=
  .arr (c.map Block.json_dumps)

/-- blockchain.py `json_loads`: deserialize every element. -/
def BlockChain.json_loads (j : Json) : Option BlockChain :=
  match j with
  | .arr xs => loadAll Block.json_loads xs
  | _ => none

theorem transaction_loads_dumps (t : Transaction) :
    Transaction.json_loads t.json_dumps = some t := by
  cases t with
  | mk s r v sg =>
    cases sg <;> simp [Transaction.json_dumps, Transaction.json_loads]

theorem loadAll_loads_map_dumps (l : List Transaction) :
    loadAll Transaction.json_loads (l.map Transaction.json_dumps) = some l := by
  induction l with
  | nil => rfl
  | cons t ts ih =>
    simp [loadAll, transaction_loads_dumps, ih]

theorem block_loads_dumps (b : Block) :
    Block.json_loads b.json_dumps = some b := by
  cases b with
  | mk tm txs p nz =>
    cases nz <;> simp [Block.json_dumps, Block.json_loads, loadAll_loads_map_dumps]

theorem loadAll_bloads_map_bdumps (l : List Block) :
    loadAll Block.json_loads (l.map Block.json_dumps) = some l := by
  induction l with
  | nil => rfl
  | cons b bs ih =>
    simp [loadAll, block_loads_dumps, ih]

theorem blockchain_loads_dumps (c : BlockChain) :
    BlockChain.json_loads c.json_dumps = some c := by
  simp [BlockChain.json_dumps, BlockChain.json_loads, loadAll_bloads_map_bdumps]

/-- Python `dict` read `m[k]` / membership `k in m`, on the association-list
model of a `Manager().dict()`: `none` when the key is absent. -/
def dictGet {α : Type} : List (String × α) → String → Option α
  | [], _ => none
  | (k', v) :: rest, k => if k' = k then some v else dictGet rest k

/-- Python `dict` write `m[k] = v`: replace the binding if present, append it
otherwise. -/
def dictSet {α : Type} : List (String × α) → String → α → List (String × α)
  | [], k, v => [(k, v)]
  | (k', v') :: rest, k, v =>
    if k' = k then (k, v) :: rest else (k', v') :: dictSet rest k v

theorem dictGet_dictSet {α : Type} (m : List (String × α)) (k k' : String) (v : α) :
    dictGet (dictSet m k v) k' = if k = k' then some v else dictGet m k' := by
  induction m with
  | nil => simp [dictGet, dictSet]
  | cons p rest ih =>
    obtain ⟨k0, v0⟩ := p
    by_cases h0 : k0 = k
    · subst h0
      by_cases h1 : k0 = k' <;> simp [dictGet, dictSet, h1]
    · have h0' : ¬ k = k0 := fun h => h0 h.symm
      by_cases h1 : k0 = k'
      · subst h1
        simp [dictGet, dictSet, h0, h0']
      · simp [dictGet, dictSet, h0, h1, ih]

/-- network.py `Network`: the three `Manager` dicts (`chains` stores each
node's serialized published chain, `blocks` and `transactions` store lists of
serialized items) and the static neighbour adjacency fixed at construction. -/
structure Network where
  chains : List (String × Json)
  blocks : List (String × List Json)
  transactions : List (String × List Json)
  neighbours : List (String × List String)

/-- network.py `post_chain`: overwrite the published serialized chain. -/
def Network.post_chain (net : Network) (chain : BlockChain) (uuid : String) : Network :=
  { net with chains := dictSet net.chains uuid chain.json_dumps }

/-- network.py `get_chain`: `[]` when nothing was published, otherwise
deserialize the stored snapshot (`none` models a parse exception). -/
def Network.get_chain (net : Network) (uuid : String) : Option BlockChain :=
  match dictGet net.chains uuid with
  | none => some []
  | some s => BlockChain.json_loads s

/-- The comprehension body of `get_neighbour_chains`: fetch every listed
neighbour's chain, propagating a fetch exception. -/
def loadAllChains (net : Network) : List String → Option (List BlockChain)
  | [] => some []
  | neigh :: rest =>
    match net.get_chain neigh with
    | none => none
    | some c =>
      match loadAllChains net rest with
      | none => none
      | some cs => some (c :: cs)

/-- network.py `get_neighbour_chains`:
`[self.get_chain(neigh) for neigh in self.neighbours[uuid] if neigh != uuid]`;
`none` models the `KeyError` on an id absent from the adjacency, or a parse
exception from `get_chain`. -/
def Network.get_neighbour_chains (net : Network) (uuid : String) : Option (List BlockChain) :=
  match dictGet net.neighbours uuid with
  | none => none
  | some nbrs => loadAllChains net (nbrs.filter (fun neigh => neigh ≠ uuid))

/-- network.py `post_block`: create the inbox with the serialized block, or
append to the existing inbox. -/
def Network.post_block (net : Network) (block : Block) (uuid : String) : Network :=
  match dictGet net.blocks uuid with
  | none => { net with blocks := dictSet net.blocks uuid [block.json_dumps] }
  | some l => { net with blocks := dictSet net.blocks uuid (l ++ [block.json_dumps]) }

/-- network.py `broadcast_block`: `post_block` to every id in
`self.neighbours[uuid]`; `none` models the `KeyError` on an unknown id. -/
def Network.broadcast_block (net : Network) (block : Block) (uuid : String) : Option Network :=
  match dictGet net.neighbours uuid with
  | none => none
  | some receivers =>
    some (receivers.foldl (fun n receiver => n.post_block block receiver) net)

/-- network.py `get_blocks`: empty result for an absent inbox; otherwise
deserialize every queued block (a parse exception, modelled by `none`, occurs
before the inbox is emptied) and drain the inbox. -/
def Network.get_blocks (net : Network) (uuid : String) : Option (List Block) × Network :=
  match dictGet net.blocks uuid with
  | none => (some [], net)
  | some l =>
    match loadAll Block.json_loads l with
    | none => (none, net)
    | some res => (some res, { net with blocks := dictSet net.blocks uuid [] })

/-- network.py `post_transaction`: same shape as `post_block`. -/
def Network.post_transaction (net : Network) (transaction : Transaction) (uuid : String) :
    Network :=
  match dictGet net.transactions uuid with
  | none => { net with transactions := dictSet net.transactions uuid [transaction.json_dumps] }
  | some l =>
    { net with transactions := dictSet net.transactions uuid (l ++ [transaction.json_dumps]) }

/-- network.py `get_transactions`: same drain semantics as `get_blocks`. -/
def Network.get_transactions (net : Network) (uuid : String) :
    Option (List Transaction) × Network :=
  match dictGet net.transactions uuid with
  | none => (some [], net)
  | some l =>
    match loadAll Transaction.json_loads l with
    | none => (none, net)
    | some res => (some res, { net with transactions := dictSet net.transactions uuid [] })

/-- node.py: `difficulty=3`. -/
def difficulty : Nat := 3

/-- node.py `Node.verify_transaction`: reject when `transaction.sign is None`,
otherwise the PKCS1 signature verification, modelled by the uninterpreted
`rsa`. -/
def Node.verify_transaction (rsa : Transaction → Bool) (transaction : Transaction) : Bool :=
  match transaction.sign with
  | none => false
  | some _ => rsa transaction

/-- node.py `Node.verify_proof`:
`block.hash()[:difficulty] == "0" * difficulty`; Python string slicing is
modelled by `List.take` on the character list. -/
def Node.verify_proof (sha : Json → String) (block : Block) : Bool :=
  (Block.hash sha block).data.take difficulty == List.replicate difficulty '0'

/-- node.py `Node.verify_block`: all transactions verify and the proof of
work verifies. -/
def Node.verify_block (sha : Json → String) (rsa : Transaction → Bool) (block : Block) : Bool :=
  block.transactions.all (Node.verify_transaction rsa) && Node.verify_proof sha block

/-- The loop of node.py `Node.verify_chain`:
`for i in range(len(chain)-1, 0, -1)`, checking the block at index `i` and the
link from index `i-1`, with early `return False`. -/
def Node.verifyChainFrom (sha : Json → String) (rsa : Transaction → Bool)
    (chain : BlockChain) : Nat → Bool
  | 0 => true
  | i + 1 =>
    Node.verify_block sha rsa (chain.getD (i + 1) default) &&
      (Block.hash sha (chain.getD i default) == (chain.getD (i + 1) default).previous_hash) &&
      Node.verifyChainFrom sha rsa chain i

/-- node.py `Node.verify_chain`: run the downward loop from index
`len(chain)-1`; an empty or single-block chain is trivially valid. -/
def Node.verify_chain (sha : Json → String) (rsa : Transaction → Bool)
    (chain : BlockChain) : Bool :=
  Node.verifyChainFrom sha rsa chain (chain.length - 1)

/-- The loop of node.py `Node.add_block` over the drained candidates: append a
candidate that passes `verify_block`, keep it and stop if the extended chain
verifies, pop it (restoring the chain) and continue otherwise. -/
def Node.addBlockLoop (sha : Json → String) (rsa : Transaction → Bool)
    (chain : BlockChain) : List Block → Bool × BlockChain
  | [] => (false, chain)
  | block :: rest =>
    if Node.verify_block sha rsa block then
      if Node.verify_chain sha rsa (chain ++ [block]) then (true, chain ++ [block])
      else Node.addBlockLoop sha rsa chain rest
    else Node.addBlockLoop sha rsa chain rest

/-- node.py `Node.add_block`: drain the block inbox and run the candidate
loop; `none` models a parse exception inside `get_blocks`. -/
def Node.add_block (sha : Json → String) (rsa : Transaction → Bool)
    (net : Network) (uuid : String) (chain : BlockChain) :
    Option (Bool × BlockChain) × Network :=
  match Network.get_blocks net uuid with
  | (none, net') => (none, net')
  | (some blocks, net') => (some (Node.addBlockLoop sha rsa chain blocks), net')

/-- The loop of node.py `Node.resolve_conflicts`: skip a neighbour chain that
fails `verify_chain`; adopt (a deep copy of) a strictly longer valid one. -/
def Node.resolveLoop (sha : Json → String) (rsa : Transaction → Bool) :
    BlockChain → List BlockChain → BlockChain
  | authoritative_chain, [] => authoritative_chain
  | authoritative_chain, chain :: rest =>
    if Node.verify_chain sha rsa chain then
      if authoritative_chain.length < chain.length then Node.resolveLoop sha rsa chain rest
      else Node.resolveLoop sha rsa authoritative_chain rest
    else Node.resolveLoop sha rsa authoritative_chain rest

/-- node.py `Node.resolve_conflicts`: fetch neighbour chains, select the
authoritative one, assign it to `self.chain`, and return
`self.chain is not authoritative_chain` — which, evaluated right after the
assignment `self.chain = authoritative_chain`, is the identity comparison of
an object with itself and is therefore always `False`.  `none` models the
`KeyError`/parse exception of `get_neighbour_chains`. -/
def Node.resolve_conflicts (sha : Json → String) (rsa : Transaction → Bool)
    (net : Network) (uuid : String) (chain : BlockChain) : Option (BlockChain × Bool) :=
  match Network.get_neighbour_chains net uuid with
  | none => none
  | some chains =>
    let authoritative_chain := Node.resolveLoop sha rsa chain chains
    some (authoritative_chain, false)

/-- Outcome of `Node.mine` (and of its nonce-search loop).  The Python method
returns `False` exactly in the `noTransactions` case and `True` in the
`mined`/`abortedAdd`/`abortedResolve` cases; `found` is the internal state of
the loop right after `break`, before the broadcast; `error` models an
uncaught exception; `exhausted` marks the end of the finite nonce-candidate
list, a point the infinite Python generator never reaches. -/
inductive MineResult where
  | noTransactions : MineResult
  | found (block : Block) : MineResult
  | mined (block : Block) : MineResult
  | abortedAdd : MineResult
  | abortedResolve : MineResult
  | error : MineResult
  | exhausted : MineResult

/-- The nonce-search loop of node.py `Node.mine`
(`for i, n in enumerate(self.random_generator())`): set the nonce, `break`
on `verify_proof`, and every 100 iterations return early if `add_block` or
`resolve_conflicts` reports success. -/
def Node.mineLoop (sha : Json → String) (rsa : Transaction → Bool) (uuid : String)
    (tmpl : Block) :
    Network → BlockChain → Nat → List Int → MineResult × Network × BlockChain
  | net, chain, _, [] => (.exhausted, net, chain)
  | net, chain, i, n :: rest =>
    let block : Block := { tmpl with nonce := some n }
    if Node.verify_proof sha block then (.found block, net, chain)
    else if i % 100 = 0 then
      match Node.add_block sha rsa net uuid chain with
      | (none, net1) => (.error, net1, chain)
      | (some (true, chain1), net1) => (.abortedAdd, net1, chain1)
      | (some (false, chain1), net1) =>
        match Node.resolve_conflicts sha rsa net1 uuid chain1 with
        | none => (.error, net1, chain1)
        | some (chain2, true) => (.abortedResolve, net1, chain2)
        | some (chain2, false) => Node.mineLoop sha rsa uuid tmpl net1 chain2 (i + 1) rest
    else Node.mineLoop sha rsa uuid tmpl net chain (i + 1) rest

/-- node.py `Node.mine`: drain the transaction inbox (`False` when empty),
build the candidate block linked to the tip (`chain[-1]`, modelled with a
default on the empty chain a live node never has), search for a nonce, and on
`break` broadcast the found block.  `now` models `time()`, `nonces` the
stream of `random_generator`. -/
def Node.mine (sha : Json → String) (rsa : Transaction → Bool) (now : Float)
    (net : Network) (uuid : String) (chain : BlockChain) (nonces : List Int) :
    MineResult × Network × BlockChain :=
  match Network.get_transactions net uuid with
  | (none, net1) => (.error, net1, chain)
  | (some transactions, net1) =>
    if transactions.length = 0 then (.noTransactions, net1, chain)
    else
      let previous_hash := Block.hash sha (chain.getLastD default)
      let block : Block := ⟨now, transactions, previous_hash, none⟩
      match Node.mineLoop sha rsa uuid block net1 chain 0 nonces with
      | (.found b, net2, chain2) =>
        match Network.broadcast_block net2 b uuid with
        | none => (.error, net2, chain2)
        | some net3 => (.mined b, net3, chain2)
      | other => other

/-! ### Concrete instances used by witnesses and counterexamples

A constant digest function suffices to drive every control path: with it any
block has hash `"000"`, so proof of work holds and the link invariant asks
that `previous_hash = "000"`. -/

/-- A concrete digest taking the place of SHA-256 in closed evaluations. -/
def sha0 : Json → String := fun _ => "000"

/-- A concrete signature check accepting every signed transaction. -/
def rsa0 : Transaction → Bool := fun _ => true

/-- The genesis block of node.py (`Block(time(), (), "0")`) at time 0. -/
def g0 : Block := ⟨0, [], "0", none⟩

/-- A successor block of `g0` under `sha0`: linked by `previous_hash = "000"`,
with a nonce making it a well-formed mined block. -/
def b2 : Block := ⟨0, [], "000", some 1⟩

/-- A concrete signed transaction. -/
def t0 : Transaction := ⟨"alice", "bob", 10, some "ab"⟩

/-! ### Chain validation -/

theorem Node.verifyChainFrom_iff (sha : Json → String) (rsa : Transaction → Bool)
    (chain : BlockChain) (j : Nat) :
    Node.verifyChainFrom sha rsa chain j = true ↔
      ∀ i, 1 ≤ i → i ≤ j →
        (Node.verify_block sha rsa (chain.getD i default) = true ∧
         Block.hash sha (chain.getD (i - 1) default) = (chain.getD i default).previous_hash) := by
  induction j with
  | zero =>
    constructor
    · intro _ i h1 h2
      exact absurd (Nat.le_trans h1 h2) (by decide)
    · intro _
      rfl
  | succ j ih =>
    simp only [Node.verifyChainFrom, Bool.and_eq_true, beq_iff_eq, ih]
    constructor
    · rintro ⟨⟨hA, hB⟩, hrest⟩ i h1 h2
      rcases Nat.lt_or_ge i (j + 1) with h | h
      · exact hrest i h1 (by omega)
      · have hi : i = j + 1 := by omega
        subst hi
        exact ⟨hA, by simpa using hB⟩
    · intro h
      refine ⟨⟨(h (j + 1) (by omega) le_rfl).1, ?_⟩, fun i h1 h2 => h i h1 (by omega)⟩
      have := (h (j + 1) (by omega) le_rfl).2
      simpa using this

/-- C4: `verify_chain(chain)` returns true iff every block at index `i ≥ 1`
passes `verify_block` and every adjacent pair satisfies
`chain[i-1].hash() == chain[i].previous_hash`; an empty chain, or a chain of
a single (genesis) block, always verifies as true. -/
theorem verify_chain_link_invariant (sha : Json → String) (rsa : Transaction → Bool)
    (chain : BlockChain) :
    (Node.verify_chain sha rsa chain = true ↔
      ∀ i, 1 ≤ i → i < chain.length →
        (Node.verify_block sha rsa (chain.getD i default) = true ∧
         Block.hash sha (chain.getD (i - 1) default) = (chain.getD i default).previous_hash)) ∧
    (chain.length ≤ 1 → Node.verify_chain sha rsa chain = true) := by
  constructor
  · rw [Node.verify_chain, Node.verifyChainFrom_iff]
    constructor
    · intro h i h1 h2
      exact h i h1 (by omega)
    · intro h i h1 h2
      exact h i h1 (by omega)
  · intro hlen
    rw [Node.verify_chain]
    have h0 : chain.length - 1 = 0 := by omega
    rw [h0]
    rfl

/-- Closed instance of `verify_chain_link_invariant`: the single-genesis chain
verifies. -/
theorem verify_chain_link_invariant_witness : Node.verify_chain sha0 rsa0 [g0] = true :=
  (verify_chain_link_invariant sha0 rsa0 [g0]).2 (by decide)

/-! ### Block ingestion (`add_block`) -/

theorem Node.addBlockLoop_eq_find (sha : Json → String) (rsa : Transaction → Bool)
    (chain : BlockChain) (blocks : List Block) :
    Node.addBlockLoop sha rsa chain blocks =
      match blocks.find? (fun b => Node.verify_block sha rsa b &&
          Node.verify_chain sha rsa (chain ++ [b])) with
      | none => (false, chain)
      | some b => (true, chain ++ [b]) := by
  induction blocks with
  | nil => rfl
  | cons b rest ih =>
    simp only [Node.addBlockLoop, List.find?_cons]
    by_cases h1 : Node.verify_block sha rsa b
    · by_cases h2 : Node.verify_chain sha rsa (chain ++ [b]) <;> simp [h1, h2, ih]
    · simp [h1, ih]

/-- C3: `add_block()` drains the inbox and accepts exactly the first candidate
that passes `verify_block` and whose appended chain passes `verify_chain`; on
success the chain is the old chain plus that one block, on failure the chain
is unchanged. -/
theorem add_block_accepts_first_valid (sha : Json → String) (rsa : Transaction → Bool)
    (net : Network) (uuid : String) (chain : BlockChain) (bs : List Block) (net' : Network)
    (hdrain : Network.get_blocks net uuid = (some bs, net')) :
    Node.add_block sha rsa net uuid chain =
      (some (match bs.find? (fun b => Node.verify_block sha rsa b &&
              Node.verify_chain sha rsa (chain ++ [b])) with
             | none => (false, chain)
             | some b => (true, chain ++ [b])), net') := by
  rw [Node.add_block, hdrain]
  simp only [Node.addBlockLoop_eq_find]

/-- Closed instance of `add_block_accepts_first_valid`: a valid broadcast
block in the inbox is appended, extending the chain by exactly one block. -/
theorem add_block_accepts_first_valid_witness :
    Node.add_block sha0 rsa0 ⟨[], [("a", [Block.json_dumps b2])], [], []⟩ "a" [g0] =
      (some (true, [g0, b2]), ⟨[], [("a", [])], [], []⟩) :=
  add_block_accepts_first_valid sha0 rsa0 ⟨[], [("a", [Block.json_dumps b2])], [], []⟩
    "a" [g0] [b2] ⟨[], [("a", [])], [], []⟩ rfl

/-! ### Proof of work -/

/-- Number of leading `'0'` hex digits of a digest string. -/
def leadingZeros (s : String) : Nat :=
  (s.data.takeWhile (fun c => c == '0')).length

theorem take_eq_replicate_zero_iff (n : Nat) (l : List Char) :
    l.take n = List.replicate n '0' ↔
      n ≤ (l.takeWhile (fun c => c == '0')).length := by
  induction n generalizing l with
  | zero => simp
  | succ n ih =>
    cases l with
    | nil => simp [List.replicate_succ]
    | cons c cs =>
      simp only [List.take_succ_cons, List.replicate_succ, List.cons.injEq, List.takeWhile_cons]
      by_cases hc : c = '0'
      · subst hc
        simp [ih, Nat.succ_le_succ_iff]
      · have hc' : (c == '0') = false := by simpa using hc
        simp [hc, hc']

theorem Node.mineLoop_found_verified (sha : Json → String) (rsa : Transaction → Bool)
    (uuid : String) (tmpl : Block) :
    ∀ (nonces : List Int) (net : Network) (chain : BlockChain) (i : Nat) (b : Block)
      (net' : Network) (chain' : BlockChain),
      Node.mineLoop sha rsa uuid tmpl net chain i nonces = (.found b, net', chain') →
      Node.verify_proof sha b = true := by
  intro nonces
  induction nonces with
  | nil =>
    intro net chain i b net' chain' h
    simp [Node.mineLoop] at h
  | cons n rest ih =>
    intro net chain i b net' chain' h
    simp only [Node.mineLoop] at h
    by_cases hp : Node.verify_proof sha { tmpl with nonce := some n } = true
    · rw [if_pos hp] at h
      simp only [Prod.mk.injEq, MineResult.found.injEq] at h
      obtain ⟨hb, -, -⟩ := h
      subst hb
      exact hp
    · rw [if_neg hp] at h
      by_cases hi : i % 100 = 0
      · rw [if_pos hi] at h
        split at h
        · simp at h
        · simp at h
        · split at h
          · simp at h
          · simp at h
          · exact ih _ _ _ _ _ _ h
      · rw [if_neg hi] at h
        exact ih _ _ _ _ _ _ h

theorem Node.mineLoop_ne_mined (sha : Json → String) (rsa : Transaction → Bool)
    (uuid : String) (tmpl : Block) :
    ∀ (nonces : List Int) (net : Network) (chain : BlockChain) (i : Nat) (b : Block)
      (net' : Network) (chain' : BlockChain),
      Node.mineLoop sha rsa uuid tmpl net chain i nonces ≠ (.mined b, net', chain') := by
  intro nonces
  induction nonces with
  | nil =>
    intro net chain i b net' chain' h
    simp [Node.mineLoop] at h
  | cons n rest ih =>
    intro net chain i b net' chain' h
    simp only [Node.mineLoop] at h
    by_cases hp : Node.verify_proof sha { tmpl with nonce := some n } = true
    · rw [if_pos hp] at h
      simp at h
    · rw [if_neg hp] at h
      by_cases hi : i % 100 = 0
      · rw [if_pos hi] at h
        split at h
        · simp at h
        · simp at h
        · split at h
          · simp at h
          · simp at h
          · exact ih _ _ _ _ _ _ h
      · rw [if_neg hi] at h
        exact ih _ _ _ _ _ _ h

/-- C5: `verify_proof(block)` holds exactly when `block.hash()` has at least
`difficulty = 3` leading zero hex digits, and every block that `mine()`
broadcasts (outcome `mined`) satisfies `verify_proof`. -/
theorem verify_proof_difficulty_and_mine (sha : Json → String) (rsa : Transaction → Bool)
    (now : Float) (net : Network) (uuid : String) (chain : BlockChain) (nonces : List Int)
    (block : Block) (net' : Network) (chain' : BlockChain) :
    (Node.verify_proof sha block = true ↔
      difficulty ≤ leadingZeros (Block.hash sha block)) ∧
    (∀ b, Node.mine sha rsa now net uuid chain nonces = (.mined b, net', chain') →
      Node.verify_proof sha b = true) := by
  constructor
  · rw [Node.verify_proof, leadingZeros, beq_iff_eq, take_eq_replicate_zero_iff]
  · intro b h
    rw [Node.mine] at h
    split at h
    · simp at h
    · rename_i transactions net1 heq
      split at h
      · simp at h
      · dsimp only at h
        split at h
        · rename_i b0 net2 chain2 hloop
          split at h
          · simp at h
          · simp only [Prod.mk.injEq, MineResult.mined.injEq] at h
            obtain ⟨hb, -, -⟩ := h
            subst hb
            exact Node.mineLoop_found_verified sha rsa uuid _ nonces net1 chain 0 b0 net2 chain2 hloop
        · exact absurd h
            (Node.mineLoop_ne_mined sha rsa uuid _ nonces net1 chain 0 b net' chain')

/-- Closed instance of `verify_proof_difficulty_and_mine`: a concrete `mine()`
run that finds nonce 7 broadcasts a block passing `verify_proof`. -/
theorem verify_proof_difficulty_and_mine_witness :
    Node.verify_proof sha0 (⟨0, [t0], "000", some 7⟩ : Block) = true :=
  (verify_proof_difficulty_and_mine sha0 rsa0 0
      ⟨[], [], [("a", [t0.json_dumps])], [("a", ["b"])]⟩ "a" [g0] [7]
      (⟨0, [t0], "000", some 7⟩ : Block)
      ⟨[], [("b", [Block.json_dumps ⟨0, [t0], "000", some 7⟩])], [("a", [])], [("a", ["b"])]⟩
      [g0]).2
    (⟨0, [t0], "000", some 7⟩ : Block) rfl

/-! ### Conflict resolution -/

theorem Node.resolveLoop_auth_le (sha : Json → String) (rsa : Transaction → Bool) :
    ∀ (cs : List BlockChain) (auth : BlockChain),
      auth.length ≤ (Node.resolveLoop sha rsa auth cs).length := by
  intro cs
  induction cs with
  | nil =>
    intro auth
    simp [Node.resolveLoop]
  | cons c rest ih =>
    intro auth
    simp only [Node.resolveLoop]
    split
    · split
      · exact le_trans (le_of_lt (by assumption)) (ih c)
      · exact ih auth
    · exact ih auth

theorem Node.resolveLoop_ge_valid (sha : Json → String) (rsa : Transaction → Bool) :
    ∀ (cs : List BlockChain) (auth c : BlockChain), c ∈ cs →
      Node.verify_chain sha rsa c = true →
      c.length ≤ (Node.resolveLoop sha rsa auth cs).length := by
  intro cs
  induction cs with
  | nil =>
    intro auth c hc
    exact absurd hc (List.not_mem_nil c)
  | cons c0 rest ih =>
    intro auth c hc hv
    rcases List.mem_cons.mp hc with rfl | hmem
    · simp only [Node.resolveLoop, hv, if_true]
      split
      · exact Node.resolveLoop_auth_le sha rsa rest c
      · exact le_trans (Nat.le_of_not_lt (by assumption))
          (Node.resolveLoop_auth_le sha rsa rest auth)
    · simp only [Node.resolveLoop]
      split
      · split
        · exact ih c0 c hmem hv
        · exact ih auth c hmem hv
      · exact ih auth c hmem hv

theorem Node.resolveLoop_cases (sha : Json → String) (rsa : Transaction → Bool) :
    ∀ (cs : List BlockChain) (auth : BlockChain),
      Node.resolveLoop sha rsa auth cs = auth ∨
        (Node.resolveLoop sha rsa auth cs ∈ cs ∧
         Node.verify_chain sha rsa (Node.resolveLoop sha rsa auth cs) = true ∧
         auth.length < (Node.resolveLoop sha rsa auth cs).length) := by
  intro cs
  induction cs with
  | nil =>
    intro auth
    exact Or.inl rfl
  | cons c0 rest ih =>
    intro auth
    simp only [Node.resolveLoop]
    split
    · split
      · rcases ih c0 with h | ⟨hmem, hv, hlt⟩
        · rw [h]
          exact Or.inr ⟨List.mem_cons_self c0 rest, by assumption, by assumption⟩
        · exact Or.inr ⟨List.mem_cons_of_mem c0 hmem, hv, lt_trans (by assumption) hlt⟩
      · rcases ih auth with h | ⟨hmem, hv, hlt⟩
        · exact Or.inl h
        · exact Or.inr ⟨List.mem_cons_of_mem c0 hmem, hv, hlt⟩
    · rcases ih auth with h | ⟨hmem, hv, hlt⟩
      · exact Or.inl h
      · exact Or.inr ⟨List.mem_cons_of_mem c0 hmem, hv, hlt⟩

theorem Node.resolveLoop_stays (sha : Json → String) (rsa : Transaction → Bool) :
    ∀ (cs : List BlockChain) (auth : BlockChain),
      (∀ c ∈ cs, Node.verify_chain sha rsa c = true → c.length ≤ auth.length) →
      Node.resolveLoop sha rsa auth cs = auth := by
  intro cs
  induction cs with
  | nil =>
    intro auth _
    rfl
  | cons c0 rest ih =>
    intro auth hbound
    simp only [Node.resolveLoop]
    split
    · split
      · rename_i hv hlt
        exact absurd hlt (Nat.not_lt.mpr (hbound c0 (List.mem_cons_self c0 rest) hv))
      · exact ih auth fun c hc hv => hbound c (List.mem_cons_of_mem c0 hc) hv
    · exact ih auth fun c hc hv => hbound c (List.mem_cons_of_mem c0 hc) hv

/-- C1 (code bug): at a concrete input with one strictly longer valid
neighbour chain, `resolve_conflicts()` replaces the local single-genesis
chain by the length-2 neighbour chain — the chain changes — yet it returns
`False`, because `self.chain is not authoritative_chain` is evaluated right
after `self.chain = authoritative_chain` and is identically false. -/
theorem resolve_conflicts_change_unreported :
    Node.resolve_conflicts sha0 rsa0
        ⟨[("b", BlockChain.json_dumps [g0, b2])], [], [], [("a", ["b"])]⟩ "a" [g0] =
      some ([g0, b2], false) ∧ ([g0, b2] : BlockChain) ≠ [g0] :=
  ⟨rfl, by simp⟩

/-- C2: `resolve_conflicts()` adopts, among the fetched neighbour chains that
pass `verify_chain`, one that is at least as long as all of them and strictly
longer than the local chain; neighbour chains failing `verify_chain` are
never adopted; the local chain wins ties, and if no valid neighbour chain is
strictly longer the local chain is unchanged. -/
theorem resolve_conflicts_adopts_longest (sha : Json → String) (rsa : Transaction → Bool)
    (net : Network) (uuid : String) (chain : BlockChain) (cs : List BlockChain)
    (r : BlockChain) (ret : Bool)
    (hcs : Network.get_neighbour_chains net uuid = some cs)
    (h : Node.resolve_conflicts sha rsa net uuid chain = some (r, ret)) :
    (∀ c ∈ cs, Node.verify_chain sha rsa c = true → c.length ≤ r.length) ∧
    (r = chain ∨
      (r ∈ cs ∧ Node.verify_chain sha rsa r = true ∧ chain.length < r.length)) ∧
    ((∀ c ∈ cs, Node.verify_chain sha rsa c = true → c.length ≤ chain.length) →
      r = chain) := by
  rw [Node.resolve_conflicts, hcs] at h
  simp only [Option.some.injEq, Prod.mk.injEq] at h
  obtain ⟨hr, -⟩ := h
  subst hr
  exact ⟨fun c hc hv => Node.resolveLoop_ge_valid sha rsa cs chain c hc hv,
    Node.resolveLoop_cases sha rsa cs chain,
    fun hb => Node.resolveLoop_stays sha rsa cs chain hb⟩

/-- Closed instance of `resolve_conflicts_adopts_longest`: with local chain
`[g0]` and one valid neighbour chain of length 2, the adopted chain is that
neighbour chain, valid and strictly longer. -/
theorem resolve_conflicts_adopts_longest_witness :
    ([g0, b2] : BlockChain) = [g0] ∨
      (([g0, b2] : BlockChain) ∈ [[g0, b2]] ∧
       Node.verify_chain sha0 rsa0 [g0, b2] = true ∧
       ([g0] : BlockChain).length < ([g0, b2] : BlockChain).length) :=
  (resolve_conflicts_adopts_longest sha0 rsa0
      ⟨[("b", BlockChain.json_dumps [g0, b2])], [], [], [("a", ["b"])]⟩ "a" [g0]
      [[g0, b2]] [g0, b2] false rfl rfl).2.1

/-! ### Mining with an empty transaction inbox -/

/-- C9: with an empty (absent or drained) transaction inbox, `mine()` reports
"nothing to mine" (Python `False`) and the local chain is unchanged. -/
theorem mine_empty_inbox_noop (sha : Json → String) (rsa : Transaction → Bool)
    (now : Float) (net : Network) (uuid : String) (chain : BlockChain) (nonces : List Int)
    (h : dictGet net.transactions uuid = none ∨ dictGet net.transactions uuid = some []) :
    (Node.mine sha rsa now net uuid chain nonces).1 = .noTransactions ∧
    (Node.mine sha rsa now net uuid chain nonces).2.2 = chain := by
  have hget : ∃ net1, Network.get_transactions net uuid = (some [], net1) := by
    rw [Network.get_transactions]
    rcases h with h | h <;> rw [h]
    · exact ⟨net, rfl⟩
    · exact ⟨{ net with transactions := dictSet net.transactions uuid [] }, by simp [loadAll]⟩
  obtain ⟨net1, hget⟩ := hget
  constructor <;> simp [Node.mine, hget]

/-- Closed instance of `mine_empty_inbox_noop` on the empty network. -/
theorem mine_empty_inbox_noop_witness :
    (Node.mine sha0 rsa0 0 ⟨[], [], [], []⟩ "a" [g0] []).1 = .noTransactions ∧
    (Node.mine sha0 rsa0 0 ⟨[], [], [], []⟩ "a" [g0] []).2.2 = [g0] :=
  mine_empty_inbox_noop sha0 rsa0 0 ⟨[], [], [], []⟩ "a" [g0] [] (Or.inl rfl)

/-! ### Reads of never-posted node ids -/

theorem loadAllChains_all_unpublished (net : Network) :
    ∀ (l : List String), (∀ v ∈ l, dictGet net.chains v = none) →
      loadAllChains net l = some (List.replicate l.length []) := by
  intro l
  induction l with
  | nil =>
    intro _
    rfl
  | cons v rest ih =>
    intro hall
    have hv := hall v (List.mem_cons_self v rest)
    simp only [loadAllChains, Network.get_chain, hv]
    rw [ih fun w hw => hall w (List.mem_cons_of_mem v hw)]
    simp [List.replicate_succ]

/-- C6 counterexample: on the empty network (id `"a"` never posted to, and
absent from the adjacency built at construction), `get_neighbour_chains`
evaluates to `none` — the model of the `KeyError` that
`self.neighbours[uuid]` raises — not to an empty result. -/
theorem get_neighbour_chains_unknown_raises :
    Network.get_neighbour_chains ⟨[], [], [], []⟩ "a" = none := rfl

/-- C6 (amended): for a node id never posted to, `get_chain`, `get_blocks`
and `get_transactions` return an empty result without erroring; but
`get_neighbour_chains` raises `KeyError` when the id is absent from the
adjacency, and returns one empty chain per (distinct-from-self, never posted
to) listed neighbour when it is present. -/
theorem get_star_empty_amended (net : Network) (uuid : String)
    (hc : dictGet net.chains uuid = none)
    (hb : dictGet net.blocks uuid = none)
    (ht : dictGet net.transactions uuid = none) :
    Network.get_chain net uuid = some [] ∧
    Network.get_blocks net uuid = (some [], net) ∧
    Network.get_transactions net uuid = (some [], net) ∧
    (dictGet net.neighbours uuid = none → Network.get_neighbour_chains net uuid = none) ∧
    (∀ nbrs, dictGet net.neighbours uuid = some nbrs →
      (∀ v ∈ nbrs, dictGet net.chains v = none) →
      Network.get_neighbour_chains net uuid =
        some (List.replicate (nbrs.filter (fun neigh => neigh ≠ uuid)).length [])) := by
  refine ⟨?_, ?_, ?_, ?_, ?_⟩
  · simp [Network.get_chain, hc]
  · simp [Network.get_blocks, hb]
  · simp [Network.get_transactions, ht]
  · intro hn
    simp [Network.get_neighbour_chains, hn]
  · intro nbrs hn hall
    simp only [Network.get_neighbour_chains, hn]
    exact loadAllChains_all_unpublished net _ fun v hv => hall v (List.mem_of_mem_filter hv)

/-- Closed instance of `get_star_empty_amended`: a node id with one listed
neighbour, nothing ever posted anywhere. -/
theorem get_star_empty_amended_witness :
    Network.get_chain ⟨[], [], [], [("a", ["b"])]⟩ "a" = some [] ∧
    Network.get_neighbour_chains ⟨[], [], [], [("a", ["b"])]⟩ "a" = some [[]] :=
  have h := get_star_empty_amended ⟨[], [], [], [("a", ["b"])]⟩ "a" rfl rfl rfl
  ⟨h.1, by
    have h5 := h.2.2.2.2 ["b"] rfl (by intro v _; rfl)
    simpa using h5⟩

/-! ### Serialization round trip -/

/-- C7: deserialization inverts serialization for `Transaction`, `Block` and
`BlockChain`, and serialization (hence the block hash) is a deterministic
function of the field values — structurally identical blocks serialize and
hash identically. -/
theorem serialization_roundtrip (sha : Json → String) (t : Transaction) (b : Block)
    (c : BlockChain) (b1 b2 : Block) :
    Transaction.json_loads t.json_dumps = some t ∧
    Block.json_loads b.json_dumps = some b ∧
    BlockChain.json_loads c.json_dumps = some c ∧
    (b1 = b2 → Block.json_dumps b1 = Block.json_dumps b2 ∧
      Block.hash sha b1 = Block.hash sha b2) :=
  ⟨transaction_loads_dumps t, block_loads_dumps b, blockchain_loads_dumps c,
   fun h => by rw [h]; exact ⟨rfl, rfl⟩⟩

/-- Closed instance of `serialization_roundtrip` at concrete values. -/
theorem serialization_roundtrip_witness :
    Block.json_loads (Block.json_dumps g0) = some g0 ∧
    Block.hash sha0 g0 = Block.hash sha0 g0 :=
  ⟨(serialization_roundtrip sha0 t0 g0 [g0] g0 g0).2.1,
   ((serialization_roundtrip sha0 t0 g0 [g0] g0 g0).2.2.2 rfl).2⟩

/-! ### Block broadcast -/

theorem Network.post_block_frame (net : Network) (b : Block) (u : String) :
    (net.post_block b u).chains = net.chains ∧
    (net.post_block b u).transactions = net.transactions ∧
    (net.post_block b u).neighbours = net.neighbours := by
  rw [Network.post_block]
  split <;> exact ⟨rfl, rfl, rfl⟩

theorem Network.post_block_get (net : Network) (b : Block) (u v : String) :
    dictGet (net.post_block b u).blocks v =
      if u = v then some ((dictGet net.blocks u).getD [] ++ [b.json_dumps])
      else dictGet net.blocks v := by
  rw [Network.post_block]
  rcases h : dictGet net.blocks u with _ | l <;>
    simp [dictGet_dictSet, h]

theorem Network.foldl_post_block_get (b : Block) :
    ∀ (receivers : List String) (net : Network) (v : String),
      dictGet (receivers.foldl (fun n receiver => n.post_block b receiver) net).blocks v =
        if receivers.count v = 0 then dictGet net.blocks v
        else some ((dictGet net.blocks v).getD [] ++
          List.replicate (receivers.count v) b.json_dumps) := by
  intro receivers
  induction receivers with
  | nil =>
    intro net v
    simp
  | cons r rest ih =>
    intro net v
    rw [List.foldl_cons, ih]
    by_cases hv : r = v
    · subst hv
      rw [Network.post_block_get, if_pos rfl]
      rcases hk : rest.count r with _ | k
      · simp [List.count_cons, hk]
      · simp only [List.count_cons, hk, beq_self_eq_true, if_true]
        simp [List.replicate_succ, List.replicate_succ' k b.json_dumps]
    · rw [Network.post_block_get, if_neg hv]
      have : (r :: rest).count v = rest.count v := by
        simp [List.count_cons, hv]
      rw [this]

/-- C8 counterexample: with adjacency `a ↦ [a]` (a node listed as its own
neighbour), `broadcast_block(block, "a")` posts the block to `"a"`'s own
inbox — the source loops over `self.neighbours[uuid]` with no self filter. -/
theorem broadcast_block_self_post :
    (Network.broadcast_block ⟨[], [], [], [("a", ["a"])]⟩ b2 "a").map
        (fun n => dictGet n.blocks "a") = some (some [Block.json_dumps b2]) := rfl

/-- C8 (amended): `broadcast_block(block, node_id)` posts the block once per
occurrence to exactly the ids listed in `node_id`'s adjacency entry —
including `node_id` itself whenever it occurs in its own neighbour list —
and leaves every other inbox unchanged. -/
theorem broadcast_block_posts_to_adjacency (net : Network) (b : Block) (uuid : String)
    (nbrs : List String) (net' : Network)
    (h1 : dictGet net.neighbours uuid = some nbrs)
    (h2 : Network.broadcast_block net b uuid = some net') :
    (∀ v, v ∉ nbrs → dictGet net'.blocks v = dictGet net.blocks v) ∧
    (∀ v ∈ nbrs, dictGet net'.blocks v =
      some ((dictGet net.blocks v).getD [] ++
        List.replicate (nbrs.count v) b.json_dumps)) := by
  rw [Network.broadcast_block, h1] at h2
  simp only [Option.some.injEq] at h2
  subst h2
  constructor
  · intro v hv
    rw [Network.foldl_post_block_get, if_pos (List.count_eq_zero.mpr hv)]
  · intro v hv
    rw [Network.foldl_post_block_get,
      if_neg (by simpa [List.count_eq_zero] using (List.count_pos_iff.mpr hv))]

/-- Closed instance of `broadcast_block_posts_to_adjacency`: the broadcast
with adjacency `a ↦ [a, b]` appends the block to `"a"`'s own inbox. -/
theorem broadcast_block_posts_to_adjacency_witness :
    dictGet ((Network.broadcast_block ⟨[], [], [], [("a", ["a", "b"])]⟩ b2 "a").getD
        ⟨[], [], [], []⟩).blocks "a" =
      some ((dictGet ([] : List (String × List Json)) "a").getD [] ++
        List.replicate ((["a", "b"] : List String).count "a") (Block.json_dumps b2)) :=
  (broadcast_block_posts_to_adjacency ⟨[], [], [], [("a", ["a", "b"])]⟩ b2 "a"
      ["a", "b"] _ rfl rfl).2 "a" (by simp)

/-! ### The broadcast step of `mine` and the miner's own chain -/

theorem Network.broadcast_block_frame (net : Network) (b : Block) (u : String)
    (net' : Network) (h : Network.broadcast_block net b u = some net') :
    net'.chains = net.chains ∧ net'.transactions = net.transactions ∧
      net'.neighbours = net.neighbours := by
  rw [Network.broadcast_block] at h
  split at h
  · simp at h
  · simp only [Option.some.injEq] at h
    subst h
    rename_i receivers heq
    clear heq
    induction receivers generalizing net with
    | nil => exact ⟨rfl, rfl, rfl⟩
    | cons r rest ih =>
      rw [List.foldl_cons]
      refine (ih (net.post_block b r)).imp ?_ (fun hh => hh.imp ?_ ?_) <;>
        intro hh <;> rw [hh]
      · exact (Network.post_block_frame net b r).1
      · exact (Network.post_block_frame net b r).2.1
      · exact (Network.post_block_frame net b r).2.2

/-- C10: when `mine()` returns `mined b`, the returned local chain is exactly
the chain produced by the nonce-search loop (whose only chain mutations are
the periodic `add_block` / `resolve_conflicts` checks); the final broadcast
posts `b` to neighbour block inboxes only — it changes neither the published
chains, nor the transaction inboxes, nor the adjacency, and never appends to
the miner's own chain. -/
theorem mine_broadcast_does_not_extend_chain (sha : Json → String)
    (rsa : Transaction → Bool) (now : Float) (net : Network) (uuid : String)
    (chain : BlockChain) (nonces : List Int) (b : Block) (net' : Network)
    (chain' : BlockChain)
    (h : Node.mine sha rsa now net uuid chain nonces = (.mined b, net', chain')) :
    ∃ (transactions : List Transaction) (net1 net2 : Network),
      Network.get_transactions net uuid = (some transactions, net1) ∧
      Node.mineLoop sha rsa uuid
          ⟨now, transactions, Block.hash sha (chain.getLastD default), none⟩
          net1 chain 0 nonces = (.found b, net2, chain') ∧
      Network.broadcast_block net2 b uuid = some net' ∧
      net'.chains = net2.chains ∧
      net'.transactions = net2.transactions ∧
      net'.neighbours = net2.neighbours := by
  rw [Node.mine] at h
  split at h
  · simp at h
  · rename_i transactions net1 heq
    split at h
    · simp at h
    · dsimp only at h
      split at h
      · rename_i b0 net2 chain2 hloop
        split at h
        · simp at h
        · rename_i net3 hbc
          simp only [Prod.mk.injEq, MineResult.mined.injEq] at h
          obtain ⟨hb, hn, hc⟩ := h
          subst hb
          subst hn
          subst hc
          exact ⟨transactions, net1, net2, heq, hloop, hbc,
            (Network.broadcast_block_frame net2 b0 uuid net3 hbc).1,
            (Network.broadcast_block_frame net2 b0 uuid net3 hbc).2.1,
            (Network.broadcast_block_frame net2 b0 uuid net3 hbc).2.2⟩
      · exact absurd h
          (Node.mineLoop_ne_mined sha rsa uuid _ nonces net1 chain 0 b net' chain')

/-- Closed instance of `mine_broadcast_does_not_extend_chain`: in the
concrete successful `mine()` run, the returned chain is still `[g0]` — the
mined block reached only the neighbour's inbox. -/
theorem mine_broadcast_does_not_extend_chain_witness :
    ∃ (transactions : List Transaction) (net1 net2 : Network),
      Network.get_transactions ⟨[], [], [("a", [t0.json_dumps])], [("a", ["b"])]⟩ "a" =
        (some transactions, net1) ∧
      Node.mineLoop sha0 rsa0 "a"
          ⟨0, transactions, Block.hash sha0 (([g0] : BlockChain).getLastD default), none⟩
          net1 [g0] 0 [7] =
        (.found ⟨0, [t0], "000", some 7⟩, net2, [g0]) ∧
      Network.broadcast_block net2 ⟨0, [t0], "000", some 7⟩ "a" =
        some ⟨[], [("b", [Block.json_dumps ⟨0, [t0], "000", some 7⟩])], [("a", [])],
          [("a", ["b"])]⟩ ∧
      (⟨[], [("b", [Block.json_dumps ⟨0, [t0], "000", some 7⟩])], [("a", [])],
        [("a", ["b"])]⟩ : Network).chains = net2.chains ∧
      (⟨[], [("b", [Block.json_dumps ⟨0, [t0], "000", some 7⟩])], [("a", [])],
        [("a", ["b"])]⟩ : Network).transactions = net2.transactions ∧
      (⟨[], [("b", [Block.json_dumps ⟨0, [t0], "000", some 7⟩])], [("a", [])],
        [("a", ["b"])]⟩ : Network).neighbours = net2.neighbours :=
  mine_broadcast_does_not_extend_chain sha0 rsa0 0
    ⟨[], [], [("a", [t0.json_dumps])], [("a", ["b"])]⟩ "a" [g0] [7]
    ⟨0, [t0], "000", some 7⟩
    ⟨[], [("b", [Block.json_dumps ⟨0, [t0], "000", some 7⟩])], [("a", [])], [("a", ["b"])]⟩
    [g0] rfl
